import Mathlib

/-!
Shallow embedding of the conversion core of the `valivia/image-converter`
repository (files `src/process.rs`, `src/util/files.rs`, `src/types.rs`,
`src/structs/settings.rs`, `src/structs/file_type.rs`), together with
theorems settling the specification claims about it.

Modelling conventions:
* Rust `u32` arithmetic is embedded as natural numbers with an explicit
  wrap `% 2 ^ 32` at every multiplication that can overflow.
* Fallible Rust functions returning `Result` are embedded as `Except`.
* Filesystem effects are embedded as explicit state passing over small
  record types describing exactly the facts the code consults.
* The shared atomic stop flag is embedded as an oracle `cancel : Nat → Bool`
  giving the value observed by the i-th read in the dispatch loop.
* Per-file event counters are embedded as unbounded naturals: the `u32`
  progress counters of `types.rs` cannot overflow below `2 ^ 32` files.
-/

namespace ImageConverter

/-- Wrap-around of Rust `u32` arithmetic (release-profile semantics): every
product of two `u32` values is reduced modulo `2 ^ 32`. -/
def u32 (n : ℕ) : ℕ := n % 2 ^ 32

/-- Decidable equality for the `Except` embedding of Rust `Result`, so that
witnesses can be checked by evaluation. -/
instance {ε α : Type} [DecidableEq ε] [DecidableEq α] : DecidableEq (Except ε α)
  | Except.error e1, Except.error e2 =>
      if h : e1 = e2 then Decidable.isTrue (by rw [h])
      else Decidable.isFalse (by intro hc; cases hc; exact h rfl)
  | Except.error _, Except.ok _ => Decidable.isFalse (by intro hc; cases hc)
  | Except.ok _, Except.error _ => Decidable.isFalse (by intro hc; cases hc)
  | Except.ok a1, Except.ok a2 =>
      if h : a1 = a2 then Decidable.isTrue (by rw [h])
      else Decidable.isFalse (by intro hc; cases hc; exact h rfl)

/-! ### Data model: `structs/settings.rs` and `structs/file_type.rs` -/

/-- Embeds `ResizeOptions` from `structs/settings.rs`. -/
inductive ResizeOptions where
  | None
  | Largest (size : ℕ)
  | Exact (width height : ℕ)
  | Smallest (size : ℕ)
  deriving DecidableEq

/-- Embeds `AvifSettings` from `structs/file_type.rs` (`quality`, `speed` are `u8`). -/
structure AvifSettings where
  quality : ℕ
  speed : ℕ
  lossless : Bool
  deriving DecidableEq

/-- Embeds `WebpSettings` from `structs/file_type.rs`. -/
structure WebpSettings where
  quality : ℕ
  lossless : Bool
  deriving DecidableEq

/-- Embeds `JpegSettings` from `structs/file_type.rs`. -/
structure JpegSettings where
  quality : ℕ
  deriving DecidableEq

/-- Embeds `EncodingOptions` from `structs/file_type.rs`. -/
inductive EncodingOptions where
  | Avif (s : AvifSettings)
  | WebP (s : WebpSettings)
  | Jpeg (s : JpegSettings)
  deriving DecidableEq

/-- Embeds `Settings` from `structs/settings.rs`. -/
structure Settings where
  encoding_options : EncodingOptions
  resize_options : ResizeOptions
  name_extension : Option String
  keep_exif : Bool
  deriving DecidableEq

/-! ### Resize dimension computation: `resize_image` in `process.rs` -/

/-- Modelled from the spec: the `Exact` arm of `resize_image` delegates to the
image crate's `resize_to_fill`, whose body is third-party code outside this
repository.  The spec describes it as "scale-to-fill the target box preserving
aspect ratio, then center-crop the overflow so the result is exactly w × h".
We model the scale step with the exact rational fill ratio
`max (tw / w) (th / h)` rounded down, and the center crop as clipping each
scaled dimension back to the requested target. -/
def exactFillDims (w h tw th : ℕ) : ℕ × ℕ :=
  (min tw ((⌊(w : ℚ) * max ((tw : ℚ) / (w : ℚ)) ((th : ℚ) / (h : ℚ))⌋).toNat),
   min th ((⌊(h : ℚ) * max ((tw : ℚ) / (w : ℚ)) ((th : ℚ) / (h : ℚ))⌋).toNat))

/-- Embeds the target-dimension computation of `resize_image`
(`process.rs` lines 154-194).  For `Smallest` and `Largest` the code computes
`size * width / height` and `size * height / width` on `u32` values, so the
products wrap modulo `2 ^ 32`; the divisions are ordinary truncating `u32`
division.  The `Exact` arm is `resize_to_fill`, modelled by `exactFillDims`.
The subsequent pixel resampling (`FilterType::Lanczos3`) is not modelled:
these claims are about the computed target dimensions. -/
def compute_target_dimensions (width height : ℕ) : ResizeOptions → ℕ × ℕ
  | ResizeOptions.Smallest size =>
      ((if width < height then size else u32 (size * width) / height),
       (if height < width then size else u32 (size * height) / width))
  | ResizeOptions.Exact w h => exactFillDims width height w h
  | ResizeOptions.Largest size =>
      ((if width > height then size else u32 (size * width) / height),
       (if height > width then size else u32 (size * height) / width))
  | ResizeOptions.None => (width, height)

/-! ### Encoding: `encode_image` in `process.rs` -/

/-- Abstract codec back-ends.  The actual byte encoders (`webp::Encoder`,
`image::codecs::avif::AvifEncoder`, `image::codecs::jpeg::JpegEncoder`) are
third-party crates outside this repository; `encode_image` only dispatches to
them, so they are embedded as an arbitrary bundle of functions over an
abstract image type `Img` and an abstract webp encoder handle `Enc`. -/
structure Codecs (Img Enc : Type) where
  webpFromImage : Img → Except String Enc
  webpLossless : Enc → List ℕ
  webpLossy : Enc → ℕ → List ℕ
  avifEncode : Img → ℕ → ℕ → Except String (List ℕ)
  jpegEncode : Img → ℕ → Except String (List ℕ)

/-- Embeds `encode_image` (`process.rs` lines 196-234).  WebP consults
`options.lossless` and, in the lossy branch, `options.quality`; Avif passes
`options.speed` and `options.quality` to `AvifEncoder::new_with_speed_quality`
and never reads `options.lossless`; Jpeg passes `options.quality`.  The
`keep_exif` and `resize_options` fields of the settings are never read. -/
def encode_image {Img Enc : Type} (c : Codecs Img Enc) (img : Img)
    (settings : Settings) : Except String (List ℕ) :=
  match settings.encoding_options with
  | EncodingOptions.WebP options =>
      match c.webpFromImage img with
      | Except.error e => Except.error e
      | Except.ok encoder =>
          Except.ok (match options.lossless with
            | true => c.webpLossless encoder
            | false => c.webpLossy encoder options.quality)
  | EncodingOptions.Avif options => c.avifEncode img options.speed options.quality
  | EncodingOptions.Jpeg options => c.jpegEncode img options.quality

/-- Normalizes exactly the two settings fields that no encode path reads:
the `lossless` flag of the Avif variant and the global `keep_exif` flag.
Two settings snapshots differ only in those fields iff they have the same
image under this map. -/
def scrubInertFields (s : Settings) : Settings :=
  { s with
    keep_exif := false,
    encoding_options :=
      match s.encoding_options with
      | EncodingOptions.Avif o => EncodingOptions.Avif { o with lossless := false }
      | e => e }

/-- Concrete codec bundle used to witness claim C9. -/
def toyCodecs : Codecs Unit Unit where
  webpFromImage := fun _ => Except.ok ()
  webpLossless := fun _ => [0]
  webpLossy := fun _ q => [q]
  avifEncode := fun _ s q => Except.ok [s, q]
  jpegEncode := fun _ q => Except.ok [q]

/-! ### Persisting: `save_image` in `process.rs` -/

/-- Failure taxonomy of `save_image`: the naming failure ("Invalid file stem")
and a write failure of `fs::write`. -/
inductive SaveError where
  | NamingError
  | IOError
  deriving DecidableEq

/-- State of the output directory.  `contents` is an association list from
full output path to written bytes; a write prepends, and reads take the first
(most recent) entry, so the last writer wins.  `writable` is the oracle for
whether `fs::write` succeeds at a path. -/
structure OutFS where
  contents : List (String × List ℕ)
  writable : String → Bool

/-- The fixed output directory name (`OUTPUT_FOLDER` in `process.rs`). -/
def OUTPUT_FOLDER : String := "output"

/-- Embeds the codec-suffix choice of `save_image` (`process.rs` lines 253-257). -/
def codecSuffix : EncodingOptions → String
  | EncodingOptions.WebP _ => ".webp"
  | EncodingOptions.Avif _ => ".avif"
  | EncodingOptions.Jpeg _ => ".jpg"

/-- Embeds `save_image` (`process.rs` lines 236-273).  `fileStem` is
`image_path.file_stem().and_then(to_str)`: `none` when no UTF-8 stem is
extractable, in which case the function fails with the naming error before
anything is written.  Otherwise the output name is the stem, then the optional
`name_extension`, then the codec suffix, joined under the output folder, and
the bytes are written there (overwriting whatever was present). -/
def save_image (data : List ℕ) (fileStem : Option String) (settings : Settings)
    (fs : OutFS) : Except SaveError (String × OutFS) :=
  match fileStem with
  | none => Except.error SaveError.NamingError
  | some stem =>
      let name1 := match settings.name_extension with
        | some ne => stem ++ ne
        | none => stem
      let fileName := name1 ++ codecSuffix settings.encoding_options
      let path := OUTPUT_FOLDER ++ "/" ++ fileName
      if fs.writable path then
        Except.ok (path, { fs with contents := (path, data) :: fs.contents })
      else
        Except.error SaveError.IOError

/-! ### File discovery: `get_files` in `util/files.rs` -/

/-- A direct entry of the input directory as consulted by `get_files`:
`read_dir` is not recursive, so these are exactly the immediate children.
`extension` is `path.extension().and_then(to_str)`: `none` when the path has
no extension or it is not valid UTF-8. -/
structure DirEntry where
  name : String
  isFile : Bool
  extension : Option String
  deriving DecidableEq

/-- Filesystem facts consulted by `get_files`: existence and directory-ness of
the fixed `input` and `output` paths, and the direct entries of the input
directory.  A `none` entry models a `read_dir` item that itself returned an
error (skipped by the `filter_map`). -/
structure FileSys where
  inputExists : Bool
  inputIsDir : Bool
  outputExists : Bool
  outputIsDir : Bool
  entries : List (Option DirEntry)

/-- Embeds the `allowed_extensions` array of `get_files`. -/
def allowed_extensions : List String := ["jpg", "jpeg", "png", "avif"]

/-- Embeds Rust `str::to_ascii_lowercase`: each character in `A..Z` is shifted
to its lowercase form, every other character is unchanged. -/
def toAsciiLower (s : String) : String :=
  String.mk (s.data.map fun c => if 'A' ≤ c ∧ c ≤ 'Z' then Char.ofNat (c.toNat + 32) else c)

/-- Embeds the per-entry filter of `get_files` (`util/files.rs` lines 32-48):
keep an entry iff it is a file and its extension, lowercased, is one of the
allowed extensions. -/
def keepEntry (e : DirEntry) : Bool :=
  e.isFile && (match e.extension with
    | some ext => allowed_extensions.contains (toAsciiLower ext)
    | none => false)

/-- Embeds the input-folder preamble of `get_files` (`util/files.rs` lines
13-19): create the folder when absent, fail when the path exists but is not a
directory.  A creation failure of `fs::create_dir` itself is not modelled. -/
def ensureInput (fs : FileSys) : Except String FileSys :=
  if !fs.inputExists then
    Except.ok { fs with inputExists := true, inputIsDir := true }
  else if !fs.inputIsDir then
    Except.error "input is not a directory"
  else
    Except.ok fs

/-- Embeds the output-folder preamble of `get_files` (`util/files.rs` lines
21-27). -/
def ensureOutput (fs : FileSys) : Except String FileSys :=
  if !fs.outputExists then
    Except.ok { fs with outputExists := true, outputIsDir := true }
  else if !fs.outputIsDir then
    Except.error "output is not a directory"
  else
    Except.ok fs

/-- Embeds `get_files` (`util/files.rs` lines 9-51): ensure both folders,
then list the direct entries of the input folder that pass `keepEntry`.
Returns the result together with the filesystem state after any folder
creation. -/
def get_files (fs : FileSys) : Except String (List DirEntry) × FileSys :=
  match ensureInput fs with
  | Except.error e => (Except.error e, fs)
  | Except.ok fs1 =>
      match ensureOutput fs1 with
      | Except.error e => (Except.error e, fs1)
      | Except.ok fs2 =>
          (Except.ok (fs2.entries.filterMap fun e? =>
            match e? with
            | some e => if keepEntry e then some e else none
            | none => none), fs2)

/-! ### Batch conversion: `convert_images` in `process.rs` -/

/-- Embeds the `Message` enum of `types.rs`, with `Progress` carrying the
fields of the `Progress` struct (`success`, `failed`, `total`). -/
inductive Msg where
  | Warning (text : String)
  | Failed (text : String)
  | Message (text : String)
  | Progress (success failed total : ℕ)
  | Completed
  deriving DecidableEq

/-- Recognizes the per-file completion event: every started unit of work ends
by sending exactly one `Progress` snapshot (the role the spec's
`FinishedProcessing` event plays in this source variant). -/
def isProgress : Msg → Bool
  | Msg.Progress _ _ _ => true
  | _ => false

/-- Recognizes the batch-completion event `Message::Completed` (the role the
spec's `QueueCompleted` event plays in this source variant). -/
def isCompleted : Msg → Bool
  | Msg.Completed => true
  | _ => false

/-- Recognizes the per-file failure report `Message::Warning`. -/
def isWarning : Msg → Bool
  | Msg.Warning _ => true
  | _ => false

/-- Projects the payload of a `Progress` event. -/
def progressData : Msg → Option (ℕ × ℕ × ℕ)
  | Msg.Progress s f t => some (s, f, t)
  | _ => none

/-- Counts the per-file completion events of a trace. -/
def finishedEvents (t : List Msg) : ℕ := (t.filter isProgress).length

/-- The sequence of `Progress` payloads of a trace, in emission order. -/
def progressValues (t : List Msg) : List (ℕ × ℕ × ℕ) := t.filterMap progressData

/-- Embeds the per-file dispatch loop of `convert_images` (`process.rs` lines
54-90).  `convert` is the outcome oracle for `convert_image` on each file
(`true` = `Ok`), abstracting decode/encode/write results; `cancel i` is the
value of the shared atomic stop flag observed at the read guarding the i-th
unit; `succ`, `fail`, `total` are the `u32` fields of the running `Progress`
value, so the `+= 1` of `increment_success` / `increment_failed` wraps
modulo `2 ^ 32` (release-profile semantics).  Per-file wall-clock durations
in message texts are not modelled.  When the flag is observed set, the loop
sends `Completed` and returns before starting the unit; otherwise the unit
runs to completion and always sends exactly one `Progress` snapshot after
its outcome message. -/
def convertLoop (convert : DirEntry → Bool) (cancel : ℕ → Bool) :
    List DirEntry → ℕ → ℕ → ℕ → ℕ → List Msg
  | [], _, _, _, _ => [Msg.Completed]
  | f :: rest, i, succ, fail, total =>
      if cancel i then [Msg.Completed]
      else
        Msg.Message ("Processing '" ++ f.name ++ "'...") ::
          (if convert f then
            Msg.Message ("Processed '" ++ f.name ++ "'") ::
              Msg.Progress (u32 (succ + 1)) fail total ::
                convertLoop convert cancel rest (i + 1) (u32 (succ + 1)) fail total
          else
            Msg.Warning ("Failed to process '" ++ f.name ++ "'") ::
              Msg.Progress succ (u32 (fail + 1)) total ::
                convertLoop convert cancel rest (i + 1) succ (u32 (fail + 1)) total)

/-- Embeds `convert_images` (`process.rs` lines 28-93), taking the result of
`get_files` as input: on discovery failure it sends a single `Failed` message
and returns; otherwise it announces the batch, sends the initial `Progress`
snapshot `Progress::new(files.len() as u32)` — a truncating cast, embedded as
reduction modulo `2 ^ 32` — and runs the dispatch loop. -/
def convert_images (convert : DirEntry → Bool) (cancel : ℕ → Bool)
    (gf : Except String (List DirEntry)) : List Msg :=
  match gf with
  | Except.error _ => [Msg.Failed "Failed to get files"]
  | Except.ok files =>
      Msg.Message ("Processing " ++ toString files.length ++ " files...") ::
        Msg.Progress 0 0 (u32 files.length) ::
          convertLoop convert cancel files 0 0 0 (u32 files.length)

/-- Ghost quantity: the number of units of work the dispatch loop starts when
the i-th flag read onwards is described by `cancel`.  It mirrors the loop's
control flow only; per-unit outcomes cannot influence it. -/
def processedCount (cancel : ℕ → Bool) : List DirEntry → ℕ → ℕ
  | [], _ => 0
  | _ :: rest, i => if cancel i then 0 else 1 + processedCount cancel rest (i + 1)

/-- Adjacent-step relation of emitted `Progress` payloads: both counters are
non-decreasing and exactly one of them grows by one. -/
def progressStep (a b : ℕ × ℕ × ℕ) : Prop :=
  a.1 ≤ b.1 ∧ a.2.1 ≤ b.2.1 ∧ b.1 + b.2.1 = a.1 + a.2.1 + 1

/-- Concrete three-file batch used by witnesses. -/
def witnessFiles : List DirEntry :=
  [DirEntry.mk "a.jpg" true (some "jpg"), DirEntry.mk "b.png" true (some "png"),
   DirEntry.mk "c.avif" true (some "avif")]

/-- Concrete stop-flag schedule used by witnesses: the flag is observed set
from the third read on. -/
def witnessCancel : ℕ → Bool := fun i => decide (2 ≤ i)

/-!
## Theorems

One theorem per claim (with counterexample and witness theorems where
required), preceded by the helper lemmas they share.
-/

/-! ### Claim C1: `Largest` resize mode -/

/-- Claim C1, counterexample.  The claim states that for every `w, h > 0` and
every size `s`, `compute_target_dimensions w h (Largest s)` equals
`(s, s * h / w)` when `w ≥ h`.  At `w = 2^17`, `h = 2^16`, `s = 2^17` the
`u32` product `s * h = 2^33` wraps to `0`, so the code computes height `0`
while the claimed exact-arithmetic value is `2^16`. -/
theorem largest_overflow_counterexample :
    compute_target_dimensions (2 ^ 17) (2 ^ 16) (ResizeOptions.Largest (2 ^ 17)) ≠
      (2 ^ 17, 2 ^ 17 * 2 ^ 16 / 2 ^ 17) := by
  decide

/-- Claim C1, amended.  For every original dimensions `(w, h)` with
`w > 0` and `h > 0` and every size `s` whose product with the smaller
dimension fits in a `u32` (the only product the code forms),
`compute_target_dimensions w h (Largest s)` scales the larger dimension to `s`
and the other by the same ratio with truncating integer arithmetic:
`(s, s * h / w)` if `w ≥ h`, else `(s * w / h, s)`.  No smaller-than-`s`
guard exists: the equation holds also when both dimensions are below `s`. -/
theorem largest_scales_larger_to_size (w h s : ℕ) (hw : 0 < w) (hh : 0 < h)
    (hfit : s * min w h < 2 ^ 32) :
    compute_target_dimensions w h (ResizeOptions.Largest s) =
      if h ≤ w then (s, s * h / w) else (s * w / h, s) := by
  rcases lt_trichotomy w h with hlt | heq | hgt
  · have h1 : ¬ (w > h) := by omega
    have h2 : h > w := hlt
    have hmin : min w h = w := by omega
    rw [hmin] at hfit
    simp only [compute_target_dimensions, h1, h2, if_true, if_false, u32,
      Nat.mod_eq_of_lt hfit]
    rw [if_neg (by omega)]
  · subst heq
    have h1 : ¬ (w > w) := by omega
    have hmin : min w w = w := by omega
    rw [hmin] at hfit
    simp only [compute_target_dimensions, h1, if_false, u32, Nat.mod_eq_of_lt hfit]
    rw [if_pos (le_refl w), Nat.mul_div_cancel _ hw]
  · have h1 : w > h := hgt
    have h2 : ¬ (h > w) := by omega
    have hmin : min w h = h := by omega
    rw [hmin] at hfit
    simp only [compute_target_dimensions, h1, h2, if_true, if_false, u32,
      Nat.mod_eq_of_lt hfit]
    rw [if_pos (by omega)]

/-- Claim C1, witness: the amended theorem applied at `w = 4`, `h = 2`,
`s = 8`, where the code yields `(8, 4)` as claimed. -/
theorem largest_scales_witness :
    compute_target_dimensions 4 2 (ResizeOptions.Largest 8) =
      if 2 ≤ 4 then (8, 8 * 2 / 4) else (8 * 4 / 2, 8) :=
  largest_scales_larger_to_size 4 2 8 (by decide) (by decide) (by decide)

/-! ### Claim C8: `Exact` resize mode -/

/-- Helper: if `n / a ≤ r` over the rationals and `a > 0`, then scaling `a`
by `r` and rounding down still dominates `n`. -/
theorem le_toNat_floor_scale (a n : ℕ) (r : ℚ) (ha : 0 < a)
    (hr : (n : ℚ) / (a : ℚ) ≤ r) : n ≤ (⌊(a : ℚ) * r⌋).toNat := by
  have haq : (0 : ℚ) < (a : ℚ) := by exact_mod_cast ha
  have h1 : (n : ℚ) ≤ (a : ℚ) * r := by
    have := (div_le_iff₀ haq).mp hr
    linarith [this]
  have h2 : (n : ℤ) ≤ ⌊(a : ℚ) * r⌋ := Int.le_floor.mpr (by push_cast; exact h1)
  omega

/-- Claim C8: for every original dimensions `(w, h)` with `w > 0`, `h > 0`
and every target `(tw, th)` with `tw > 0`, `th > 0`,
`compute_target_dimensions w h (Exact tw th)` returns exactly `(tw, th)`:
the fill ratio scales both dimensions to at least the target, and the center
crop then clips each back to exactly the target. -/
theorem exact_returns_target (w h tw th : ℕ) (hw : 0 < w) (hh : 0 < h)
    (htw : 0 < tw) (hth : 0 < th) :
    compute_target_dimensions w h (ResizeOptions.Exact tw th) = (tw, th) := by
  have hpos : 0 < tw + th := by omega
  have h1 : tw ≤ (⌊(w : ℚ) * max ((tw : ℚ) / (w : ℚ)) ((th : ℚ) / (h : ℚ))⌋).toNat :=
    le_toNat_floor_scale w tw _ hw (le_max_left _ _)
  have h2 : th ≤ (⌊(h : ℚ) * max ((tw : ℚ) / (w : ℚ)) ((th : ℚ) / (h : ℚ))⌋).toNat :=
    le_toNat_floor_scale h th _ hh (le_max_right _ _)
  simp only [compute_target_dimensions, exactFillDims]
  rw [min_eq_left h1, min_eq_left h2]

/-- Claim C8, witness: a 2:1 landscape source mapped to a 3:4 portrait target
comes out at exactly the target dimensions. -/
theorem exact_returns_witness :
    compute_target_dimensions 100 50 (ResizeOptions.Exact 30 40) = (30, 40) :=
  exact_returns_target 100 50 30 40 (by decide) (by decide) (by decide) (by decide)

/-! ### Claim C9: encode output independent of inert fields -/

/-- Claim C9: the encoded output bytes are independent of the Avif `lossless`
flag and of `keep_exif`.  For every codec bundle and decoded image, two
settings snapshots that differ only in those fields (that is, snapshots
identified by `scrubInertFields`) make `encode_image` return identical
results, because neither field is consulted by any encode path. -/
theorem encode_ignores_inert_fields {Img Enc : Type} (c : Codecs Img Enc)
    (img : Img) (s1 s2 : Settings)
    (h : scrubInertFields s1 = scrubInertFields s2) :
    encode_image c img s1 = encode_image c img s2 := by
  obtain ⟨e1, r1, n1, k1⟩ := s1
  obtain ⟨e2, r2, n2, k2⟩ := s2
  cases e1 <;> cases e2 <;>
    simp only [scrubInertFields, Settings.mk.injEq, EncodingOptions.Avif.injEq,
      EncodingOptions.WebP.injEq, EncodingOptions.Jpeg.injEq,
      AvifSettings.mk.injEq, reduceCtorEq, and_true, true_and, false_and,
      and_false] at h
  · obtain ⟨⟨hq, hs⟩, -⟩ := h
    simp only [encode_image]
    rw [hq, hs]
  · obtain ⟨ho, -⟩ := h
    simp only [encode_image]
    rw [ho]
  · obtain ⟨ho, -⟩ := h
    simp only [encode_image]
    rw [ho]

/-- Claim C9, witness: flipping Avif `lossless` and `keep_exif` together
leaves the encoded bytes unchanged. -/
theorem encode_ignores_inert_witness :
    encode_image toyCodecs ()
        ⟨EncodingOptions.Avif ⟨75, 8, true⟩, ResizeOptions.None, none, true⟩ =
      encode_image toyCodecs ()
        ⟨EncodingOptions.Avif ⟨75, 8, false⟩, ResizeOptions.None, none, false⟩ :=
  encode_ignores_inert_fields toyCodecs ()
    ⟨EncodingOptions.Avif ⟨75, 8, true⟩, ResizeOptions.None, none, true⟩
    ⟨EncodingOptions.Avif ⟨75, 8, false⟩, ResizeOptions.None, none, false⟩ rfl

/-! ### Claim C7: output naming and silent overwrite -/

/-- Claim C7: a persisted output file is named
`<source stem><optional name_extension><codec suffix>` inside the output
directory, with the suffix chosen by the active codec; `save_image` fails with
the naming error exactly when no stem is extractable; and two sources with the
same stem target the same output path, so the second write silently overwrites
the first — last writer wins, with no error reported. -/
theorem save_image_contract (d1 d2 : List ℕ) (stem : String) (s : Settings)
    (fs fs1 fs2 : OutFS) (p1 p2 : String)
    (h1 : save_image d1 (some stem) s fs = Except.ok (p1, fs1))
    (h2 : save_image d2 (some stem) s fs1 = Except.ok (p2, fs2)) :
    p1 = OUTPUT_FOLDER ++ "/" ++
        ((stem ++ Option.getD s.name_extension "") ++ codecSuffix s.encoding_options)
      ∧ fs1.contents.lookup p1 = some d1
      ∧ p2 = p1
      ∧ fs2.contents.lookup p1 = some d2
      ∧ (∀ (d : List ℕ) (fs0 : OutFS),
          save_image d none s fs0 = Except.error SaveError.NamingError)
      ∧ (∀ (d : List ℕ) (fs0 : OutFS),
          save_image d (some stem) s fs0 ≠ Except.error SaveError.NamingError) := by
  have hname : (match s.name_extension with
      | some ne => stem ++ ne
      | none => stem) = stem ++ Option.getD s.name_extension "" := by
    cases s.name_extension with
    | none => simp [Option.getD]
    | some ne => simp [Option.getD]
  simp only [save_image, hname] at h1 h2
  by_cases hw : fs.writable (OUTPUT_FOLDER ++ "/" ++
      ((stem ++ Option.getD s.name_extension "") ++ codecSuffix s.encoding_options)) = true
  · rw [if_pos hw] at h1
    obtain ⟨hp1, hfs1⟩ := by simpa using h1
    subst hp1
    subst hfs1
    by_cases hw2 : fs.writable (OUTPUT_FOLDER ++ "/" ++
        ((stem ++ Option.getD s.name_extension "") ++ codecSuffix s.encoding_options)) = true
    · simp only [if_pos hw2] at h2
      obtain ⟨hp2, hfs2⟩ := by simpa using h2
      subst hp2
      subst hfs2
      refine ⟨rfl, ?_, rfl, ?_, ?_, ?_⟩
      · simp [List.lookup]
      · simp [List.lookup]
      · intro d fs0; simp [save_image]
      · intro d fs0
        simp only [save_image, hname]
        by_cases hw3 : fs0.writable (OUTPUT_FOLDER ++ "/" ++
            ((stem ++ Option.getD s.name_extension "") ++ codecSuffix s.encoding_options)) = true
        · simp [hw3]
        · simp [hw3]
    · exact absurd hw2 (by simpa using hw)
  · rw [if_neg hw] at h1
    exact absurd h1 (by simp)

/-- Claim C7, witness: two saves with stem `a` under WebP encoding both land
on `output/a.webp`; after the second save the stored bytes are the second
writer's. -/
theorem save_image_contract_witness :
    ("output/a.webp" : String) = OUTPUT_FOLDER ++ "/" ++
        (("a" ++ Option.getD (none : Option String) "") ++
          codecSuffix (EncodingOptions.WebP ⟨90, false⟩))
      ∧ (OutFS.mk [("output/a.webp", [1])] (fun _ => true)).contents.lookup "output/a.webp"
          = some [1]
      ∧ ("output/a.webp" : String) = "output/a.webp"
      ∧ (OutFS.mk [("output/a.webp", [2]), ("output/a.webp", [1])]
            (fun _ => true)).contents.lookup "output/a.webp" = some [2]
      ∧ (∀ (d : List ℕ) (fs0 : OutFS),
          save_image d none
            ⟨EncodingOptions.WebP ⟨90, false⟩, ResizeOptions.None, none, false⟩ fs0 =
            Except.error SaveError.NamingError)
      ∧ (∀ (d : List ℕ) (fs0 : OutFS),
          save_image d (some "a")
            ⟨EncodingOptions.WebP ⟨90, false⟩, ResizeOptions.None, none, false⟩ fs0 ≠
            Except.error SaveError.NamingError) :=
  save_image_contract [1] [2] "a"
    ⟨EncodingOptions.WebP ⟨90, false⟩, ResizeOptions.None, none, false⟩
    ⟨[], fun _ => true⟩
    ⟨[("output/a.webp", [1])], fun _ => true⟩
    ⟨[("output/a.webp", [2]), ("output/a.webp", [1])], fun _ => true⟩
    "output/a.webp" "output/a.webp" rfl rfl

/-! ### Claim C5: discovery filter -/

/-- Helper: unfolds the boolean entry filter into its logical form. -/
theorem keepEntry_iff (e : DirEntry) :
    keepEntry e = true ↔
      (e.isFile = true ∧ ∃ s, e.extension = some s ∧
        toAsciiLower s ∈ allowed_extensions) := by
  simp only [keepEntry, Bool.and_eq_true]
  cases hx : e.extension with
  | none => simp
  | some ext =>
      constructor
      · rintro ⟨hf, hm⟩
        exact ⟨hf, ext, rfl, List.elem_iff.mp hm⟩
      · rintro ⟨hf, s, hs, hm⟩
        obtain rfl : ext = s := Option.some.inj hs
        exact ⟨hf, List.elem_iff.mpr hm⟩

/-- Helper: when `get_files` succeeds, the returned list is the entry filter
applied to the direct entries of the input directory. -/
theorem get_files_ok (fs : FileSys) (files : List DirEntry)
    (h : (get_files fs).1 = Except.ok files) :
    files = fs.entries.filterMap fun e? =>
      match e? with
      | some e => if keepEntry e then some e else none
      | none => none := by
  obtain ⟨ie, iid, oe, od, ents⟩ := fs
  cases ie <;> cases iid <;> cases oe <;> cases od <;>
    simp [get_files, ensureInput, ensureOutput] at h <;>
    (first | exact h | exact h.symm)

/-- Helper: membership in the entry filter of `get_files`. -/
theorem mem_discoveryFilter (ents : List (Option DirEntry)) (e : DirEntry) :
    (e ∈ ents.filterMap fun e? =>
        match e? with
        | some x => if keepEntry x then some x else none
        | none => none) ↔ (some e ∈ ents ∧ keepEntry e = true) := by
  rw [List.mem_filterMap]
  constructor
  · rintro ⟨a, ha, hfa⟩
    cases a with
    | none => simp at hfa
    | some x =>
        by_cases hk : keepEntry x = true
        · simp only [hk] at hfa
          obtain rfl : x = e := by simpa using hfa
          exact ⟨ha, hk⟩
        · simp [hk] at hfa
  · rintro ⟨hmem, hk⟩
    refine ⟨some e, hmem, ?_⟩
    simp [hk]

/-- Claim C5: when discovery succeeds, the returned list holds exactly the
direct entries of the input directory that are files whose extension,
ASCII-lowercased, is one of jpg, jpeg, png, avif; mixed-case spellings are
accepted through the lowercasing and every other entry is excluded.
Recursion does not occur: only the direct entries are ever inspected. -/
theorem discovery_filters_entries (fs : FileSys) (files : List DirEntry)
    (h : (get_files fs).1 = Except.ok files) (e : DirEntry) :
    e ∈ files ↔
      (some e ∈ fs.entries ∧ e.isFile = true ∧
        ∃ s, e.extension = some s ∧ toAsciiLower s ∈ allowed_extensions) := by
  rw [get_files_ok fs files h, mem_discoveryFilter, keepEntry_iff]

/-- Claim C5, witness: discovery on a directory holding a mixed-case `A.JPG`
file, a `.txt` file, a subdirectory and an unreadable entry returns exactly
the `A.JPG` file, and the characterization instantiates to it. -/
theorem discovery_filters_witness :
    DirEntry.mk "A.JPG" true (some "JPG") ∈ [DirEntry.mk "A.JPG" true (some "JPG")] ↔
      (some (DirEntry.mk "A.JPG" true (some "JPG")) ∈
          [some (DirEntry.mk "A.JPG" true (some "JPG")),
           some (DirEntry.mk "b.txt" true (some "txt")),
           some (DirEntry.mk "sub" false none), none] ∧
        (DirEntry.mk "A.JPG" true (some "JPG")).isFile = true ∧
        ∃ s, (DirEntry.mk "A.JPG" true (some "JPG")).extension = some s ∧
          toAsciiLower s ∈ allowed_extensions) :=
  discovery_filters_entries
    ⟨true, true, true, true,
      [some (DirEntry.mk "A.JPG" true (some "JPG")),
       some (DirEntry.mk "b.txt" true (some "txt")),
       some (DirEntry.mk "sub" false none), none]⟩
    [DirEntry.mk "A.JPG" true (some "JPG")] (by decide)
    (DirEntry.mk "A.JPG" true (some "JPG"))

/-! ### Dispatch-loop helper lemmas -/

/-- Helper: a trace starting with the empty list has no completion events. -/
theorem finishedEvents_nil : finishedEvents ([] : List Msg) = 0 := rfl

/-- Helper: completion events of a trace split at its head. -/
theorem finishedEvents_cons (m : Msg) (t : List Msg) :
    finishedEvents (m :: t) =
      (if isProgress m = true then 1 else 0) + finishedEvents t := by
  simp only [finishedEvents, List.filter_cons]
  by_cases h : isProgress m = true
  · simp [h]
    omega
  · simp [h]

/-- Helper: the per-file completion events of the dispatch loop are exactly
the units of work it starts. -/
theorem finishedEvents_convertLoop (convert : DirEntry → Bool)
    (cancel : ℕ → Bool) (files : List DirEntry) :
    ∀ i succ fail total,
      finishedEvents (convertLoop convert cancel files i succ fail total) =
        processedCount cancel files i := by
  induction files with
  | nil =>
      intro i s f t
      simp [convertLoop, processedCount, finishedEvents_cons,
        finishedEvents_nil, isProgress]
  | cons hd tl ih =>
      intro i s f t
      by_cases hc : cancel i = true
      · simp [convertLoop, processedCount, hc, finishedEvents_cons,
          finishedEvents_nil, isProgress]
      · have hc2 : cancel i = false := by simpa using hc
        cases hcv : convert hd <;>
          simp [convertLoop, processedCount, hc2, hcv, finishedEvents_cons,
            finishedEvents_nil, isProgress, ih]

/-- Helper: the loop never starts more units than there are files. -/
theorem processedCount_le (cancel : ℕ → Bool) (files : List DirEntry) :
    ∀ i, processedCount cancel files i ≤ files.length := by
  induction files with
  | nil => intro i; simp [processedCount]
  | cons hd tl ih =>
      intro i
      by_cases hc : cancel i = true
      · simp [processedCount, hc]
      · have hrec := ih (i + 1)
        have hc2 : cancel i = false := by simpa using hc
        simp [processedCount, hc2]
        omega

/-- Helper: while the flag stays clear, every file is started. -/
theorem processedCount_lower (cancel : ℕ → Bool) (files : List DirEntry) :
    ∀ K i, K ≤ files.length → (∀ d, d < K → cancel (i + d) = false) →
      K ≤ processedCount cancel files i := by
  induction files with
  | nil =>
      intro K i hK _
      simp only [List.length_nil, Nat.le_zero] at hK
      omega
  | cons hd tl ih =>
      intro K i hK hlive
      cases K with
      | zero => omega
      | succ K2 =>
          have hc : cancel i = false := by
            have h0 := hlive 0 (by omega)
            simpa using h0
          have hK2 : K2 ≤ tl.length := by
            simp only [List.length_cons] at hK
            omega
          have hrec : K2 ≤ processedCount cancel tl (i + 1) := by
            apply ih K2 (i + 1) hK2
            intro d hd2
            have hsh := hlive (d + 1) (by omega)
            have heq : i + (d + 1) = i + 1 + d := by omega
            rw [heq] at hsh
            exact hsh
          simp [processedCount, hc]
          omega

/-- Helper: once the flag is observed set at read `j`, no unit with index
`j` or later is started, so at most `j - i` units start from index `i`. -/
theorem processedCount_stop (cancel : ℕ → Bool) (files : List DirEntry) :
    ∀ i j, i ≤ j → cancel j = true → processedCount cancel files i ≤ j - i := by
  induction files with
  | nil => intro i j _ _; simp [processedCount]
  | cons hd tl ih =>
      intro i j hij hcj
      by_cases hci : cancel i = true
      · simp [processedCount, hci]
      · have hne : i ≠ j := by
          intro he
          rw [he] at hci
          exact hci hcj
        have hrec := ih (i + 1) j (by omega) hcj
        have hci2 : cancel i = false := by simpa using hci
        simp [processedCount, hci2]
        omega

/-- Helper: with the flag never set, every file is started. -/
theorem processedCount_nocancel (files : List DirEntry) :
    ∀ i, processedCount (fun _ => false) files i = files.length := by
  induction files with
  | nil => intro i; simp [processedCount]
  | cons hd tl ih =>
      intro i
      simp [processedCount, ih]
      omega

/-- Helper: the dispatch loop emits exactly one batch-completion event. -/
theorem convertLoop_completed_count (convert : DirEntry → Bool)
    (cancel : ℕ → Bool) (files : List DirEntry) :
    ∀ i succ fail total,
      ((convertLoop convert cancel files i succ fail total).filter
        isCompleted).length = 1 := by
  induction files with
  | nil => intro i s f t; simp [convertLoop, isCompleted]
  | cons hd tl ih =>
      intro i s f t
      by_cases hc : cancel i = true
      · simp [convertLoop, hc, isCompleted]
      · cases hcv : convert hd <;> simp [convertLoop, hc, hcv, isCompleted, ih]

/-- Helper: with the flag never set, the loop reports exactly the failed
units as warnings, one warning per `Err` outcome. -/
theorem convertLoop_warning_count (convert : DirEntry → Bool)
    (files : List DirEntry) :
    ∀ i succ fail total,
      ((convertLoop convert (fun _ => false) files i succ fail total).filter
          isWarning).length = (files.filter fun x => !convert x).length := by
  induction files with
  | nil => intro i s f t; simp [convertLoop, isWarning]
  | cons hd tl ih =>
      intro i s f t
      cases hcv : convert hd <;>
        simp [convertLoop, hcv, isWarning, List.filter_cons, ih]

/-- Helper: as long as the counters cannot reach the `u32` wrap within the
remaining files, the `Progress` payloads emitted by the loop extend the
running counters: components never decrease, their sum stays bounded by the
starting sum plus the remaining files, and `total` is passed through
unchanged. -/
theorem progressValues_convertLoop_mem (convert : DirEntry → Bool)
    (cancel : ℕ → Bool) (files : List DirEntry) :
    ∀ i succ fail total p, succ + fail + files.length < 2 ^ 32 →
      p ∈ progressValues (convertLoop convert cancel files i succ fail total) →
        (succ ≤ p.1 ∧ fail ≤ p.2.1 ∧
          p.1 + p.2.1 ≤ succ + fail + files.length ∧ p.2.2 = total) := by
  induction files with
  | nil =>
      intro i s f t p hbound hp
      simp [convertLoop, progressValues, progressData] at hp
  | cons hd tl ih =>
      intro i s f t p hbound hp
      simp only [List.length_cons] at hbound
      by_cases hc : cancel i = true
      · simp [convertLoop, hc, progressValues, progressData] at hp
      · cases hcv : convert hd with
        | true =>
            have hs1 : u32 (s + 1) = s + 1 := Nat.mod_eq_of_lt (by omega)
            have hval : progressValues
                (convertLoop convert cancel (hd :: tl) i s f t) =
                (s + 1, f, t) ::
                  progressValues (convertLoop convert cancel tl (i + 1) (s + 1) f t) := by
              simp [convertLoop, hc, hcv, progressValues, progressData, hs1]
            rw [hval] at hp
            rcases List.mem_cons.mp hp with rfl | hp2
            · exact ⟨show s ≤ s + 1 by omega, show f ≤ f by omega,
                show (s + 1) + f ≤ s + f + (tl.length + 1) by omega, rfl⟩
            · obtain ⟨ha, hb, hcc, hd2⟩ :=
                ih (i + 1) (s + 1) f t p (by omega) hp2
              refine ⟨by omega, hb, ?_, hd2⟩
              simp only [List.length_cons]
              omega
        | false =>
            have hf1 : u32 (f + 1) = f + 1 := Nat.mod_eq_of_lt (by omega)
            have hval : progressValues
                (convertLoop convert cancel (hd :: tl) i s f t) =
                (s, f + 1, t) ::
                  progressValues (convertLoop convert cancel tl (i + 1) s (f + 1) t) := by
              simp [convertLoop, hc, hcv, progressValues, progressData, hf1]
            rw [hval] at hp
            rcases List.mem_cons.mp hp with rfl | hp2
            · exact ⟨show s ≤ s by omega, show f ≤ f + 1 by omega,
                show s + (f + 1) ≤ s + f + (tl.length + 1) by omega, rfl⟩
            · obtain ⟨ha, hb, hcc, hd2⟩ :=
                ih (i + 1) s (f + 1) t p (by omega) hp2
              refine ⟨ha, by omega, ?_, hd2⟩
              simp only [List.length_cons]
              omega

/-- Helper: below the `u32` wrap, prepending the running counters to the
`Progress` payloads of the loop yields a chain under `progressStep`: each
emitted snapshot bumps exactly one counter of its predecessor by one. -/
theorem progressValues_convertLoop_chain (convert : DirEntry → Bool)
    (cancel : ℕ → Bool) (files : List DirEntry) :
    ∀ i succ fail total, succ + fail + files.length < 2 ^ 32 →
      List.Chain' progressStep ((succ, fail, total) ::
        progressValues (convertLoop convert cancel files i succ fail total)) := by
  induction files with
  | nil => intro i s f t _; simp [convertLoop, progressValues, progressData]
  | cons hd tl ih =>
      intro i s f t hbound
      simp only [List.length_cons] at hbound
      by_cases hc : cancel i = true
      · simp [convertLoop, hc, progressValues, progressData]
      · cases hcv : convert hd with
        | true =>
            have hs1 : u32 (s + 1) = s + 1 := Nat.mod_eq_of_lt (by omega)
            have hval : progressValues
                (convertLoop convert cancel (hd :: tl) i s f t) =
                (s + 1, f, t) ::
                  progressValues (convertLoop convert cancel tl (i + 1) (s + 1) f t) := by
              simp [convertLoop, hc, hcv, progressValues, progressData, hs1]
            rw [hval, List.chain'_cons]
            exact ⟨⟨show s ≤ s + 1 by omega, show f ≤ f by omega,
              show (s + 1) + f = s + f + 1 by omega⟩,
              ih (i + 1) (s + 1) f t (by omega)⟩
        | false =>
            have hf1 : u32 (f + 1) = f + 1 := Nat.mod_eq_of_lt (by omega)
            have hval : progressValues
                (convertLoop convert cancel (hd :: tl) i s f t) =
                (s, f + 1, t) ::
                  progressValues (convertLoop convert cancel tl (i + 1) s (f + 1) t) := by
              simp [convertLoop, hc, hcv, progressValues, progressData, hf1]
            rw [hval, List.chain'_cons]
            exact ⟨⟨show s ≤ s by omega, show f ≤ f + 1 by omega,
              show s + (f + 1) = s + f + 1 by omega⟩,
              ih (i + 1) s (f + 1) t (by omega)⟩

/-- Helper: with the flag never set and every conversion succeeding, the
n-th started unit (n from 0) emits a `Progress` snapshot whose success
counter is the wrapped `succ + n + 1`. -/
theorem progressValues_allSuccess_mem (files : List DirEntry) :
    ∀ n i succ fail total, n < files.length →
      (u32 (succ + n + 1), fail, total) ∈ progressValues
        (convertLoop (fun _ => true) (fun _ => false) files i succ fail total) := by
  induction files with
  | nil => intro n i s f t hn; simp at hn
  | cons hd tl ih =>
      intro n i s f t hn
      have hval : progressValues
          (convertLoop (fun _ => true) (fun _ => false) (hd :: tl) i s f t) =
          (u32 (s + 1), f, t) ::
            progressValues
              (convertLoop (fun _ => true) (fun _ => false) tl (i + 1) (u32 (s + 1)) f t) := by
        simp [convertLoop, progressValues, progressData]
      rw [hval]
      cases n with
      | zero =>
          apply List.mem_cons.mpr
          left
          rfl
      | succ n2 =>
          apply List.mem_cons.mpr
          right
          have hn2 : n2 < tl.length := by
            simp only [List.length_cons] at hn
            omega
          have hrec := ih n2 (i + 1) (u32 (s + 1)) f t hn2
          have harith : u32 (u32 (s + 1) + n2 + 1) = u32 (s + (n2 + 1) + 1) := by
            simp only [u32]
            omega
          rw [harith] at hrec
          exact hrec

/-! ### Claim C3: exactly one batch-completion event -/

/-- Claim C3: for every batch whose file discovery succeeds, exactly one
batch-completion event (`Message::Completed`, the spec's `QueueCompleted`) is
sent over the channel — both when the batch processes all files to natural
completion and when the stop flag cuts it short part-way through, for every
outcome oracle and every flag schedule. -/
theorem queue_completed_exactly_once (convert : DirEntry → Bool)
    (cancel : ℕ → Bool) (files : List DirEntry) :
    ((convert_images convert cancel (Except.ok files)).filter
      isCompleted).length = 1 := by
  simp [convert_images, isCompleted, convertLoop_completed_count]

/-! ### Claim C2: cooperative cancellation bounds -/

/-- Claim C2: the stop flag is read before each unit of work starts, and a
skipped unit emits no per-file completion event while a started unit always
runs to completion and emits exactly one.  Consequently, over the dispatch
loop started on `N` discovered files: if the first `K` flag reads are clear
then at least `K` completion events are emitted, never more than `N` are
emitted, and if the flag is set at read `j` then at most `j` units start, so
no new unit of work begins once the flag is set. -/
theorem cancellation_bounds (files : List DirEntry) (convert : DirEntry → Bool)
    (cancel : ℕ → Bool) (K : ℕ) (hK : K ≤ files.length)
    (hlive : ∀ d, d < K → cancel d = false) :
    K ≤ finishedEvents (convertLoop convert cancel files 0 0 0 files.length)
    ∧ finishedEvents (convertLoop convert cancel files 0 0 0 files.length) ≤
        files.length
    ∧ (∀ j, cancel j = true →
        finishedEvents (convertLoop convert cancel files 0 0 0 files.length) ≤ j) := by
  rw [finishedEvents_convertLoop convert cancel files 0 0 0 files.length]
  refine ⟨?_, processedCount_le cancel files 0, ?_⟩
  · apply processedCount_lower cancel files K 0 hK
    intro d hd
    have := hlive d hd
    simpa using this
  · intro j hj
    have := processedCount_stop cancel files 0 j (by omega) hj
    omega

/-- Claim C2, witness: three files with the flag observed set from the third
read on — at least two and at most three completion events, and the loop
stops at the flag. -/
theorem cancellation_bounds_witness :
    2 ≤ finishedEvents
        (convertLoop (fun _ => true) witnessCancel witnessFiles 0 0 0
          witnessFiles.length)
    ∧ finishedEvents
        (convertLoop (fun _ => true) witnessCancel witnessFiles 0 0 0
          witnessFiles.length) ≤ witnessFiles.length
    ∧ (∀ j, witnessCancel j = true →
        finishedEvents
          (convertLoop (fun _ => true) witnessCancel witnessFiles 0 0 0
            witnessFiles.length) ≤ j) :=
  cancellation_bounds witnessFiles (fun _ => true) witnessCancel 2
    (by decide) (by decide)

/-! ### Claim C4: per-file failure isolation -/

/-- Claim C4: a failure of any single conversion is caught at the single-file
boundary.  With the stop flag clear, the loop emits one completion event per
discovered file whatever the per-file outcomes are (no failure aborts the
batch, and each file is attempted exactly once — `N` files yield exactly `N`
completion events), every failed unit is reported by exactly one warning,
the batch-completion event is still emitted exactly once, and the set of
started units never depends on the outcome oracle (no retries, no aborts). -/
theorem per_file_failure_isolated (files : List DirEntry)
    (convert convert2 : DirEntry → Bool) (cancel : ℕ → Bool) :
    finishedEvents (convertLoop convert (fun _ => false) files 0 0 0
        files.length) = files.length
    ∧ ((convertLoop convert (fun _ => false) files 0 0 0 files.length).filter
        isWarning).length = (files.filter fun x => !convert x).length
    ∧ ((convertLoop convert (fun _ => false) files 0 0 0 files.length).filter
        isCompleted).length = 1
    ∧ finishedEvents (convertLoop convert cancel files 0 0 0 files.length)
        = finishedEvents (convertLoop convert2 cancel files 0 0 0 files.length) := by
  refine ⟨?_, ?_, ?_, ?_⟩
  · rw [finishedEvents_convertLoop]
    exact processedCount_nocancel files 0
  · exact convertLoop_warning_count convert files 0 0 0 files.length
  · exact convertLoop_completed_count convert (fun _ => false) files 0 0 0
      files.length
  · rw [finishedEvents_convertLoop, finishedEvents_convertLoop]

/-! ### Claim C6: discovery failure handling -/

/-- Claim C6: `get_files` creates the input and output directories when they
are absent (after a success both exist as directories), fails exactly when
one of the two paths exists but is not a directory, and on failure
`convert_images` sends the single failure message and stops before any file
is processed: the whole trace is that one message. -/
theorem discovery_error_aborts (fs : FileSys) (convert : DirEntry → Bool)
    (cancel : ℕ → Bool) :
    ((get_files fs).1.isOk = false ↔
        ((fs.inputExists = true ∧ fs.inputIsDir = false) ∨
         (fs.outputExists = true ∧ fs.outputIsDir = false)))
    ∧ ((get_files fs).1.isOk = true →
        ((get_files fs).2.inputExists = true ∧ (get_files fs).2.inputIsDir = true ∧
         (get_files fs).2.outputExists = true ∧ (get_files fs).2.outputIsDir = true))
    ∧ ((get_files fs).1.isOk = false →
        convert_images convert cancel (get_files fs).1 =
          [Msg.Failed "Failed to get files"]) := by
  obtain ⟨ie, iid, oe, od, ents⟩ := fs
  cases ie <;> cases iid <;> cases oe <;> cases od <;>
    simp [get_files, ensureInput, ensureOutput, convert_images, Except.isOk,
      Except.toBool]

/-- Claim C6, witness: an input path that exists but is not a directory makes
discovery fail and the batch abort with the single failure message. -/
theorem discovery_error_witness :
    ((get_files (FileSys.mk true false true true [])).1.isOk = false ↔
        ((true = true ∧ false = false) ∨ (true = true ∧ true = false)))
    ∧ ((get_files (FileSys.mk true false true true [])).1.isOk = true →
        ((get_files (FileSys.mk true false true true [])).2.inputExists = true ∧
         (get_files (FileSys.mk true false true true [])).2.inputIsDir = true ∧
         (get_files (FileSys.mk true false true true [])).2.outputExists = true ∧
         (get_files (FileSys.mk true false true true [])).2.outputIsDir = true))
    ∧ ((get_files (FileSys.mk true false true true [])).1.isOk = false →
        convert_images (fun _ => true) (fun _ => false)
            (get_files (FileSys.mk true false true true [])).1 =
          [Msg.Failed "Failed to get files"]) :=
  discovery_error_aborts (FileSys.mk true false true true [])
    (fun _ => true) (fun _ => false)

/-! ### Claim C10: progress counter invariants -/

/-- Helper: for a batch where every conversion succeeds and the flag stays
clear, the snapshot of the (n+1)-st started unit in the `convert_images`
trace carries the wrapped success counter `n + 1` and the truncated total.
Stated for a symbolic file list so that instantiating it at a huge batch
never evaluates the list. -/
theorem progress_convert_images_mem (files : List DirEntry) (n : ℕ)
    (hn : n < files.length) :
    (u32 (n + 1), 0, u32 files.length) ∈ progressValues
      (convert_images (fun _ => true) (fun _ => false) (Except.ok files)) := by
  have hval : progressValues (convert_images (fun _ => true) (fun _ => false)
      (Except.ok files)) =
      (0, 0, u32 files.length) ::
        progressValues (convertLoop (fun _ => true) (fun _ => false) files 0 0 0
          (u32 files.length)) := by
    simp [convert_images, progressValues, progressData]
  rw [hval]
  have hmem := progressValues_allSuccess_mem files n 0 0 0 (u32 files.length) hn
  simp only [Nat.zero_add] at hmem
  exact List.mem_cons.mpr (Or.inr hmem)

/-- Claim C10, counterexample.  The claim asserts `success + failed ≤ total`
for every `Progress` value of every batch, with `total` fixed to the
discovered file count.  The source computes `total` as the truncating cast
`files.len() as u32` and bumps the counters as wrapping `u32` additions, so
on a batch of `2 ^ 32 + 5` discovered files `total` is `5` while the sixth
snapshot already carries `success = 6`: the trace contains `Progress (6, 0, 5)`
and the claimed inequality fails. -/
theorem progress_overflow_counterexample :
    ¬ (∀ p ∈ progressValues (convert_images (fun _ => true) (fun _ => false)
          (Except.ok (List.replicate (2 ^ 32 + 5)
            (DirEntry.mk "a.jpg" true (some "jpg"))))),
        p.1 + p.2.1 ≤ p.2.2) := by
  intro hall
  have hmem := progress_convert_images_mem
    (List.replicate (2 ^ 32 + 5) (DirEntry.mk "a.jpg" true (some "jpg"))) 5
    (by rw [List.length_replicate]; omega)
  rw [List.length_replicate] at hmem
  have h6 : u32 (5 + 1) = 6 := by decide
  have ht : u32 (2 ^ 32 + 5) = 5 := by decide
  rw [h6, ht] at hmem
  have hle := hall _ hmem
  simp at hle

/-- Claim C10, amended.  For every batch with fewer than `2 ^ 32` discovered
files — so that neither the `files.len() as u32` cast truncates nor the `u32`
counter increments wrap — every `Progress` value sent over the channel
satisfies `success + failed ≤ total` with `total` fixed at batch start to the
discovered file count; the emitted sequence starts at `(0, 0, total)` and
each later snapshot bumps exactly one of the two counters by one, so both are
monotonically non-decreasing and their sum counts the files processed so
far.  At `2 ^ 32` files or more the wrap breaks the inequality. -/
theorem progress_invariants (files : List DirEntry) (convert : DirEntry → Bool)
    (cancel : ℕ → Bool) (hN : files.length < 2 ^ 32) :
    (progressValues (convert_images convert cancel (Except.ok files))).head? =
        some (0, 0, files.length)
    ∧ (∀ p ∈ progressValues (convert_images convert cancel (Except.ok files)),
        p.1 + p.2.1 ≤ p.2.2 ∧ p.2.2 = files.length)
    ∧ List.Chain' progressStep
        (progressValues (convert_images convert cancel (Except.ok files))) := by
  have htot : u32 files.length = files.length := Nat.mod_eq_of_lt hN
  have hval : progressValues (convert_images convert cancel (Except.ok files)) =
      (0, 0, files.length) ::
        progressValues (convertLoop convert cancel files 0 0 0 files.length) := by
    simp [convert_images, progressValues, progressData, htot]
  refine ⟨?_, ?_, ?_⟩
  · rw [hval]
    rfl
  · rw [hval]
    intro p hp
    rcases List.mem_cons.mp hp with rfl | hp2
    · exact ⟨show 0 + 0 ≤ files.length by omega, rfl⟩
    · obtain ⟨-, -, hcc, ht⟩ :=
        progressValues_convertLoop_mem convert cancel files 0 0 0
          files.length p (by omega) hp2
      refine ⟨?_, ht⟩
      rw [ht]
      omega
  · rw [hval]
    exact progressValues_convertLoop_chain convert cancel files 0 0 0
      files.length (by omega)

/-- Claim C10, witness: the invariants instantiated on the concrete
three-file batch (well below the `u32` wrap) with the flag set from the
third read on. -/
theorem progress_invariants_witness :
    (progressValues (convert_images (fun _ => true) witnessCancel
        (Except.ok witnessFiles))).head? = some (0, 0, witnessFiles.length)
    ∧ (∀ p ∈ progressValues (convert_images (fun _ => true) witnessCancel
          (Except.ok witnessFiles)),
        p.1 + p.2.1 ≤ p.2.2 ∧ p.2.2 = witnessFiles.length)
    ∧ List.Chain' progressStep
        (progressValues (convert_images (fun _ => true) witnessCancel
          (Except.ok witnessFiles))) :=
  progress_invariants witnessFiles (fun _ => true) witnessCancel (by decide)

end ImageConverter
